import Mathlib

/-!
The header osversion_structs.h: the conditional marshalling boundary for OSVERSIONINFOEX

The header `osversion_structs.h` gives four names in two configurations,
selected by the preprocessor symbol `NO_OSVERSIONINFOEX`:

* symbol not defined: three function prototypes and the definition
  `OSVERSIONINFOEX_sizeof() sizeof(OSVERSIONINFOEX)`;
* symbol defined: four function-like definitions that expand to nothing,
  to `NULL`, to nothing and to `0`.

The embedding below follows the header line by line.  The structure type
`OSVERSIONINFOEX` comes from the platform headers behind `osversion.h`, so
its member list is a parameter of the configuration.  The bodies of the three
prototypes live in the generated `osversion_structs.c`, which is not among
the verified sources; they are modelled from the specification and are marked
as such.
-/

namespace OSVersionStructs

set_option linter.unusedVariables false

/-! ## C types used by the header -/

/-- A `JNIEnv *` value, kept abstract. -/
abbrev JNIEnv := Nat

/-- A `jobject` reference. -/
abbrev jobject := Nat

/-- A native address (`OSVERSIONINFOEX *`). -/
abbrev Ptr := Nat

/-- The C constant `NULL`. -/
def NULL : Ptr := 0

/-- One member of a C structure type: its size and its alignment, in bytes. -/
structure CMember where
  size : Nat
  align : Nat
deriving DecidableEq, Repr

/-- A C structure type, given by its members in declaration order. -/
abbrev CStruct := List CMember

/-- The least offset not below `off` that is a multiple of `a`
(`off` itself when `a` is zero). -/
def alignUp (off a : Nat) : Nat := off + (a - off % a) % a

/-- Offset just past the last member, when members are laid out in order
starting at `off`, each at the next multiple of its alignment. -/
def endOffset : Nat → CStruct → Nat
  | off, [] => off
  | off, m :: ms => endOffset (alignUp off m.align + m.size) ms

/-- Alignment of a structure: the largest alignment among its members. -/
def structAlign (T : CStruct) : Nat := T.foldl (fun a m => max a m.align) 1

/-- The value of the C operator `sizeof` on a structure type: the end offset
of the members, rounded up to the alignment of the structure. -/
def sizeofStruct (T : CStruct) : Nat := alignUp (endOffset 0 T) (structAlign T)

/-- Sum of the sizes of the members of a structure type. -/
def memberBytes (T : CStruct) : Nat := (T.map CMember.size).sum

/-- A build configuration of the header: whether `NO_OSVERSIONINFOEX` is
defined, the structure type `OSVERSIONINFOEX` that `osversion.h` brings into
scope, and the number of characters its fixed-size character array holds. -/
structure Config where
  NO_OSVERSIONINFOEX : Bool
  OSVERSIONINFOEX : CStruct
  szCSDVersionLen : Nat

/-! ## The size accessor (header lines 21 and 26) -/

/-- The expansion of `OSVERSIONINFOEX_sizeof()`:
`sizeof(OSVERSIONINFOEX)` under `#ifndef NO_OSVERSIONINFOEX`, the literal `0`
under `#else`. -/
def OSVERSIONINFOEX_sizeof (cfg : Config) : Nat :=
  if cfg.NO_OSVERSIONINFOEX then 0 else sizeofStruct cfg.OSVERSIONINFOEX

/-- The member list of the wide-character `OSVERSIONINFOEXW` of the Windows
headers: five `DWORD`s, `WCHAR[128]`, three `WORD`s and two `BYTE`s. -/
def winOSVERSIONINFOEXW : CStruct :=
  [⟨4, 4⟩, ⟨4, 4⟩, ⟨4, 4⟩, ⟨4, 4⟩, ⟨4, 4⟩, ⟨256, 2⟩, ⟨2, 2⟩, ⟨2, 2⟩, ⟨2, 2⟩, ⟨1, 1⟩, ⟨1, 1⟩]

/-- A configuration in which the structure is available. -/
def cfgAvailable : Config :=
  { NO_OSVERSIONINFOEX := false, OSVERSIONINFOEX := winOSVERSIONINFOEXW, szCSDVersionLen := 128 }

/-- A configuration in which `NO_OSVERSIONINFOEX` is defined. -/
def cfgUnavailable : Config :=
  { NO_OSVERSIONINFOEX := true, OSVERSIONINFOEX := [], szCSDVersionLen := 0 }

/-! ## The managed side and the native side of the marshalling -/

/-- Modelled from the spec: the fields of the native structure and of the
managed object (section 3: version numbers, build number, platform id,
service-pack string, suite mask, product type, padding); the declaration of
the managed class is not among the verified sources. -/
inductive FieldName
  | major | minor | build | platformId | servicePack | suiteMask | productType | padding
deriving DecidableEq, Repr

/-- Modelled from the spec: the fields the generated structure binding expects
to find on the managed class; the generated `osversion_structs.c` that lists
them is missing. -/
def expectedFields : List FieldName :=
  [.major, .minor, .build, .platformId, .servicePack, .suiteMask, .productType, .padding]

/-- Modelled from the spec: the Managed Object of section 3, a value object
with one field per native structure field, together with the fields its
class declares (`clazz`); the managed class itself is missing from the
sources. Strings are sequences of character codes. -/
structure ManagedObject where
  clazz : List FieldName
  major : Int
  minor : Int
  build : Int
  platformId : Int
  servicePack : List Nat
  suiteMask : Int
  productType : Int
  padding : Int
deriving DecidableEq, Repr

/-- Modelled from the spec: the Native Structure of section 3, a fixed-layout
aggregate of integer fields and one fixed-size character array; the value
view of the type that `osversion.h` brings into scope. -/
structure NativeStruct where
  major : Int
  minor : Int
  build : Int
  platformId : Int
  servicePack : List Nat
  suiteMask : Int
  productType : Int
  padding : Int
deriving DecidableEq, Repr

/-- Modelled from the spec: the Field Cache Record of section 3, the
process-wide set of field identifiers with its "already initialised" flag;
its declaration is in the missing `osversion_structs.c`. -/
structure FieldCache where
  cached : Bool
  ids : List (FieldName × Nat)
deriving DecidableEq, Repr

/-- The state the four operations act on: the managed heap reached through
the environment, the native memory holding structures, and the process-wide
field cache. -/
structure World where
  heap : jobject → Option ManagedObject
  mem : Ptr → Option NativeStruct
  fc : FieldCache

/-- Abnormal outcomes of a call. `misconfiguration` is the fatal error of
section 7; `invalidAccess` marks a call outside the contract, on a reference
or pointer that designates no live object or buffer. -/
inductive Fault
  | misconfiguration
  | invalidAccess
deriving DecidableEq, Repr

/-- Modelled from the spec: the Field Cache operation of section 4.2, whose
body is in the missing `osversion_structs.c`. Once cached, a call is a no-op;
otherwise every expected field is resolved on the class of the object, a
missing one is a fatal misconfiguration, and the identifiers are stored. -/
def cacheFields (lpObject : jobject) (w : World) : Except Fault World :=
  if w.fc.cached then .ok w
  else
    match w.heap lpObject with
    | none => .error .invalidAccess
    | some x =>
      if expectedFields.all (fun f => decide (f ∈ x.clazz)) then
        .ok { w with fc := { cached := true,
                             ids := expectedFields.map (fun f => (f, x.clazz.indexOf f)) } }
      else .error .misconfiguration

/-- Modelled from the spec: the length-bounded string conversion of section
4.3: read the character array of width `W`, stopping at the embedded
terminator or at the end of the buffer, whichever comes first. -/
def decodeString (W : Nat) (buf : List Nat) : List Nat :=
  (buf.take W).takeWhile (fun c => c != 0)

/-- Modelled from the spec: the string half of the encoder of section 4.4:
write the string into the character array of width `W` over the previous
contents `buf`, followed by a terminator when there is room; a string longer
than the array is cut at the width of the array. -/
def encodeString (W : Nat) (s buf : List Nat) : List Nat :=
  (s ++ 0 :: buf.drop (s.length + 1)).take W

/-- Modelled from the spec: the field copy of the Decoder (section 4.3):
integer fields copied as they are, the character array converted to a
string; the class of the target object is kept. -/
def decodeFields (W : Nat) (s : NativeStruct) (x : ManagedObject) : ManagedObject :=
  { clazz := x.clazz
    major := s.major
    minor := s.minor
    build := s.build
    platformId := s.platformId
    servicePack := decodeString W s.servicePack
    suiteMask := s.suiteMask
    productType := s.productType
    padding := s.padding }

/-- Modelled from the spec: the field copy of the Encoder (section 4.4),
symmetric to the decoder: integer fields copied as they are, the string
written into the character array of the caller-provided structure `s`. -/
def encodeFields (W : Nat) (x : ManagedObject) (s : NativeStruct) : NativeStruct :=
  { major := x.major
    minor := x.minor
    build := x.build
    platformId := x.platformId
    servicePack := encodeString W x.servicePack s.servicePack
    suiteMask := x.suiteMask
    productType := x.productType
    padding := x.padding }

/-- Modelled from the spec: the Decoder of section 4.3, whose body is in the
missing `osversion_structs.c`. The field cache is set up on first use, then
the fields of the native structure at `lpStruct` are copied into the managed
object, and the structure pointer is returned. -/
def decode (W : Nat) (lpObject : jobject) (lpStruct : Ptr) (w : World) :
    Except Fault (Ptr × World) :=
  match cacheFields lpObject w with
  | .error e => .error e
  | .ok w1 =>
    match w1.heap lpObject, w1.mem lpStruct with
    | some x, some s =>
      .ok (lpStruct,
        { w1 with heap := Function.update w1.heap lpObject (some (decodeFields W s x)) })
    | _, _ => .error .invalidAccess

/-- Modelled from the spec: the Encoder of section 4.4, whose body is in the
missing `osversion_structs.c`. The field cache is set up on first use, then
the fields of the managed object are copied into the native structure at
`lpStruct`. -/
def encode (W : Nat) (lpObject : jobject) (lpStruct : Ptr) (w : World) :
    Except Fault World :=
  match cacheFields lpObject w with
  | .error e => .error e
  | .ok w1 =>
    match w1.heap lpObject, w1.mem lpStruct with
    | some x, some s =>
      .ok { w1 with mem := Function.update w1.mem lpStruct (some (encodeFields W x s)) }
    | _, _ => .error .invalidAccess

/-! ## The three marshalling names (header lines 18-20 and 23-25) -/

/-- Header line 18 declares the function; line 23 defines the name to expand
to nothing, so the call leaves the state alone and cannot fail. -/
def cacheOSVERSIONINFOEXFields (cfg : Config) (env : JNIEnv) (lpObject : jobject)
    (w : World) : Except Fault World :=
  if cfg.NO_OSVERSIONINFOEX then .ok w else cacheFields lpObject w

/-- Header line 19 declares the function; line 24 defines the name to expand
to `NULL`, whatever the arguments. -/
def getOSVERSIONINFOEXFields (cfg : Config) (env : JNIEnv) (lpObject : jobject)
    (lpStruct : Ptr) (w : World) : Except Fault (Ptr × World) :=
  if cfg.NO_OSVERSIONINFOEX then .ok (NULL, w)
  else decode cfg.szCSDVersionLen lpObject lpStruct w

/-- Header line 20 declares the function; line 25 defines the name to expand
to nothing. -/
def setOSVERSIONINFOEXFields (cfg : Config) (env : JNIEnv) (lpObject : jobject)
    (lpStruct : Ptr) (w : World) : Except Fault World :=
  if cfg.NO_OSVERSIONINFOEX then .ok w
  else encode cfg.szCSDVersionLen lpObject lpStruct w

/-! ## Sequences of calls and the one managed class -/

/-- One call of a marshalling name, with its arguments. -/
inductive Call
  | cache (env : JNIEnv) (lpObject : jobject)
  | get (env : JNIEnv) (lpObject : jobject) (lpStruct : Ptr)
  | set (env : JNIEnv) (lpObject : jobject) (lpStruct : Ptr)
deriving DecidableEq, Repr

/-- The effect of one call on the state. -/
def step (cfg : Config) : Call → World → Except Fault World
  | .cache env o, w => cacheOSVERSIONINFOEXFields cfg env o w
  | .get env o p, w =>
    match getOSVERSIONINFOEXFields cfg env o p w with
    | .ok r => .ok r.2
    | .error e => .error e
  | .set env o p, w => setOSVERSIONINFOEXFields cfg env o p w

/-- The effect of a sequence of calls, stopping at the first fault. -/
def run (cfg : Config) : List Call → World → Except Fault World
  | [], w => .ok w
  | c :: cs, w =>
    match step cfg c w with
    | .ok w1 => run cfg cs w1
    | .error e => .error e

/-- Modelled from the spec: sections 3 and 4.2 speak of the one class of the
Managed Object, whose field identifiers the process-wide cache holds; the
managed class is missing from the sources. A state is consistent for the
managed class `c` when every live managed object is an instance of `c` and a
filled field cache goes with a class that declares every expected field. -/
def Consistent (c : List FieldName) (w : World) : Prop :=
  (∀ o x, w.heap o = some x → x.clazz = c) ∧
  (w.fc.cached = true → ∀ f ∈ expectedFields, f ∈ c)

/-! ## The header as a list of declarations -/

/-- One declaration of the header: a function prototype with its return type,
name and parameter types, or a function-like `#define` with its name,
parameter names and replacement tokens. -/
inductive Decl
  | prototype (ret : String) (name : String) (params : List String)
  | define (name : String) (params : List String) (replacement : List String)
deriving DecidableEq, Repr

/-- The name a declaration introduces. -/
def Decl.name : Decl → String
  | .prototype _ n _ => n
  | .define n _ _ => n

/-- A managed object of a class that declares every expected field, holding
major 10, minor 0, build 19041, platform id 2 and an empty service pack. -/
def sampleObject : ManagedObject :=
  { clazz := expectedFields, major := 10, minor := 0, build := 19041, platformId := 2,
    servicePack := [], suiteMask := 256, productType := 1, padding := 0 }

/-- A managed object whose service-pack string "SP12" has four characters. -/
def longObject : ManagedObject :=
  { sampleObject with servicePack := [83, 80, 49, 50] }

/-- A managed object whose class lacks all but two of the expected fields. -/
def skewedObject : ManagedObject :=
  { sampleObject with clazz := [.major, .minor] }

/-- A populated native structure with a three-character array. -/
def sampleStruct : NativeStruct :=
  { major := 6, minor := 1, build := 7601, platformId := 2, servicePack := [65, 66, 67],
    suiteMask := 0, productType := 1, padding := 0 }

/-- A state with three live objects, one live structure and an empty cache. -/
def sampleWorld : World :=
  { heap := fun h =>
      if h = 1 then some sampleObject
      else if h = 2 then some skewedObject
      else if h = 3 then some longObject
      else none
    mem := fun p => if p = 4096 then some sampleStruct else none
    fc := { cached := false, ids := [] } }

/-- A state whose one live managed object is of the class that lacks expected
fields, with an empty cache. -/
def skewedWorld : World :=
  { heap := fun h => if h = 2 then some skewedObject else none
    mem := fun p => if p = 4096 then some sampleStruct else none
    fc := { cached := false, ids := [] } }

/-- An available configuration whose character array holds three characters. -/
def cfgNarrow : Config :=
  { NO_OSVERSIONINFOEX := false, OSVERSIONINFOEX := winOSVERSIONINFOEXW, szCSDVersionLen := 3 }

/-! ## Facts about the layout rule -/

theorem le_alignUp (off a : Nat) : off ≤ alignUp off a := by
  unfold alignUp
  omega

theorem le_endOffset (T : CStruct) : ∀ off, off + memberBytes T ≤ endOffset off T := by
  induction T with
  | nil => intro off; simp [memberBytes, endOffset]
  | cons m ms ih =>
    intro off
    have h1 := ih (alignUp off m.align + m.size)
    have h2 := le_alignUp off m.align
    simp only [memberBytes, List.map_cons, List.sum_cons, endOffset] at h1 ⊢
    omega

theorem memberBytes_le_sizeofStruct (T : CStruct) : memberBytes T ≤ sizeofStruct T := by
  have h1 := le_endOffset T 0
  have h2 := le_alignUp (endOffset 0 T) (structAlign T)
  unfold sizeofStruct
  omega

theorem memberBytes_pos (T : CStruct) (hne : T ≠ []) (hpos : ∀ m ∈ T, 0 < m.size) :
    0 < memberBytes T := by
  cases T with
  | nil => exact absurd rfl hne
  | cons m ms =>
    have := hpos m (List.mem_cons_self m ms)
    simp only [memberBytes, List.map_cons, List.sum_cons]
    omega

/-! ## Facts about the marshalling model -/

theorem takeWhile_take_terminated (s r : List Nat) (h : ∀ c ∈ s, c ≠ 0) :
    ∀ n, ((s ++ 0 :: r).take n).takeWhile (fun c => c != 0) = s.take n := by
  induction s with
  | nil =>
    intro n
    cases n <;> simp
  | cons a t ih =>
    intro n
    cases n with
    | zero => simp
    | succ k =>
      have ha : a ≠ 0 := h a (List.mem_cons_self a t)
      have ht : ∀ c ∈ t, c ≠ 0 := fun c hc => h c (List.mem_cons_of_mem a hc)
      simp [ha, ih ht k]

theorem decodeString_encodeString (W : Nat) (s buf : List Nat) (h : ∀ c ∈ s, c ≠ 0) :
    decodeString W (encodeString W s buf) = s.take W := by
  unfold decodeString encodeString
  rw [List.take_take, Nat.min_self]
  exact takeWhile_take_terminated s _ h W

theorem decodeFields_encodeFields (W : Nat) (x y : ManagedObject) (s : NativeStruct)
    (h : ∀ c ∈ x.servicePack, c ≠ 0) :
    decodeFields W (encodeFields W x s) y =
      { x with clazz := y.clazz, servicePack := x.servicePack.take W } := by
  simp [decodeFields, encodeFields, decodeString_encodeString W _ _ h]

theorem expected_all (x : ManagedObject) (h : ∀ f ∈ expectedFields, f ∈ x.clazz) :
    expectedFields.all (fun f => decide (f ∈ x.clazz)) = true := by
  rw [List.all_eq_true]
  intro f hf
  exact decide_eq_true (h f hf)

theorem expected_not_all (x : ManagedObject) (h : ∃ f ∈ expectedFields, f ∉ x.clazz) :
    expectedFields.all (fun f => decide (f ∈ x.clazz)) = false := by
  obtain ⟨f, hf, hnot⟩ := h
  cases hall : expectedFields.all (fun f => decide (f ∈ x.clazz)) with
  | false => rfl
  | true =>
    rw [List.all_eq_true] at hall
    exact absurd (of_decide_eq_true (hall f hf)) hnot

theorem cacheFields_of_cached (o : jobject) (w : World) (h : w.fc.cached = true) :
    cacheFields o w = .ok w := by
  simp [cacheFields, h]

theorem cacheFields_ok_cached (o : jobject) (w w1 : World) (h : cacheFields o w = .ok w1) :
    w1.fc.cached = true := by
  unfold cacheFields at h
  by_cases hc : w.fc.cached = true
  · simp [hc] at h
    rw [← h]; exact hc
  · simp [hc] at h
    cases hx : w.heap o with
    | none => simp [hx] at h
    | some x =>
      simp only [hx] at h
      split at h
      · injection h with h
        rw [← h]
      · cases h

theorem cacheFields_complete (o : jobject) (w : World) (x : ManagedObject)
    (hx : w.heap o = some x) (hclass : ∀ f ∈ expectedFields, f ∈ x.clazz) :
    ∃ w1, cacheFields o w = .ok w1 ∧ w1.heap = w.heap ∧ w1.mem = w.mem ∧
      w1.fc.cached = true := by
  by_cases hc : w.fc.cached = true
  · exact ⟨w, cacheFields_of_cached o w hc, rfl, rfl, hc⟩
  · refine ⟨{ w with fc := { cached := true,
                             ids := expectedFields.map (fun f => (f, x.clazz.indexOf f)) } },
      ?_, rfl, rfl, rfl⟩
    simp [cacheFields, hc, hx, expected_all x hclass]

theorem cacheFields_idem (o1 o2 : jobject) (w : World) :
    (cacheFields o1 w).bind (cacheFields o2) = cacheFields o1 w := by
  cases h : cacheFields o1 w with
  | error e => rfl
  | ok w1 =>
    show cacheFields o2 w1 = .ok w1
    exact cacheFields_of_cached o2 w1 (cacheFields_ok_cached o1 w w1 h)

/-! ## Facts about the one managed class -/

theorem consistent_of_fresh (c : List FieldName) (w : World)
    (hone : ∀ o x, w.heap o = some x → x.clazz = c) (hfresh : w.fc.cached = false) :
    Consistent c w :=
  ⟨hone, fun h => by rw [hfresh] at h; cases h⟩

theorem consistent_cacheFields (c : List FieldName) (o : jobject) (w w1 : World)
    (hcons : Consistent c w) (h : cacheFields o w = .ok w1) : Consistent c w1 := by
  unfold cacheFields at h
  by_cases hc : w.fc.cached = true
  · simp [hc] at h
    rw [← h]; exact hcons
  · simp [hc] at h
    cases hx : w.heap o with
    | none => simp [hx] at h
    | some x =>
      simp only [hx] at h
      split at h
      · rename_i hall
        injection h with h
        rw [← h]
        refine ⟨hcons.1, fun _ f hf => ?_⟩
        rw [← hcons.1 o x hx]
        exact hall f hf
      · cases h

theorem consistent_decode (c : List FieldName) (W : Nat) (o : jobject) (p : Ptr)
    (w : World) (r : Ptr × World) (hcons : Consistent c w) (h : decode W o p w = .ok r) :
    Consistent c r.2 := by
  unfold decode at h
  cases hc : cacheFields o w with
  | error e => simp [hc] at h
  | ok wc =>
    have hwc := consistent_cacheFields c o w wc hcons hc
    simp only [hc] at h
    cases hx : wc.heap o with
    | none => simp [hx] at h
    | some x =>
      cases hs : wc.mem p with
      | none => simp [hx, hs] at h
      | some s =>
        simp only [hx, hs] at h
        injection h with h
        rw [← h]
        refine ⟨fun o1 x1 h1 => ?_, hwc.2⟩
        by_cases ho : o1 = o
        · subst ho
          simp at h1
          rw [← h1]
          exact hwc.1 o1 x hx
        · simp [Function.update, ho] at h1
          exact hwc.1 o1 x1 h1

theorem consistent_encode (c : List FieldName) (W : Nat) (o : jobject) (p : Ptr)
    (w w1 : World) (hcons : Consistent c w) (h : encode W o p w = .ok w1) :
    Consistent c w1 := by
  unfold encode at h
  cases hc : cacheFields o w with
  | error e => simp [hc] at h
  | ok wc =>
    have hwc := consistent_cacheFields c o w wc hcons hc
    simp only [hc] at h
    cases hx : wc.heap o with
    | none => simp [hx] at h
    | some x =>
      cases hs : wc.mem p with
      | none => simp [hx, hs] at h
      | some s =>
        simp only [hx, hs] at h
        injection h with h
        rw [← h]
        exact hwc

theorem consistent_step (cfg : Config) (c : List FieldName) (call : Call) (w w1 : World)
    (hcons : Consistent c w) (h : step cfg call w = .ok w1) : Consistent c w1 := by
  cases hn : cfg.NO_OSVERSIONINFOEX with
  | true =>
    cases call <;>
      simp [step, cacheOSVERSIONINFOEXFields, getOSVERSIONINFOEXFields,
        setOSVERSIONINFOEXFields, hn] at h <;>
      (rw [← h]; exact hcons)
  | false =>
    cases call with
    | cache env o =>
      simp only [step, cacheOSVERSIONINFOEXFields, hn] at h
      exact consistent_cacheFields c o w w1 hcons h
    | get env o p =>
      simp only [step, getOSVERSIONINFOEXFields, hn] at h
      cases hd : decode cfg.szCSDVersionLen o p w with
      | error e => simp [hd] at h
      | ok r =>
        simp [hd] at h
        rw [← h]
        exact consistent_decode c cfg.szCSDVersionLen o p w r hcons hd
    | set env o p =>
      simp only [step, setOSVERSIONINFOEXFields, hn] at h
      exact consistent_encode c cfg.szCSDVersionLen o p w w1 hcons h

theorem consistent_run (cfg : Config) (c : List FieldName) (calls : List Call) :
    ∀ (w w1 : World), Consistent c w → run cfg calls w = .ok w1 → Consistent c w1 := by
  induction calls with
  | nil =>
    intro w w1 hcons h
    simp [run] at h
    rw [← h]; exact hcons
  | cons call rest ih =>
    intro w w1 hcons h
    unfold run at h
    cases hs : step cfg call w with
    | error e => simp [hs] at h
    | ok w2 =>
      simp only [hs] at h
      exact ih w2 w1 (consistent_step cfg c call w w2 hcons hs) h

/-! ## Facts about the declarations of the header -/

/-- C1: when `NO_OSVERSIONINFOEX` is defined, `OSVERSIONINFOEX_sizeof()` is
exactly 0, whatever the structure type. -/
theorem sizeof_unavailable (cfg : Config) (h : cfg.NO_OSVERSIONINFOEX = true) :
    OSVERSIONINFOEX_sizeof cfg = 0 := by
  simp [OSVERSIONINFOEX_sizeof, h]

theorem sizeof_unavailable_witness :
    cfgUnavailable.NO_OSVERSIONINFOEX = true ∧ OSVERSIONINFOEX_sizeof cfgUnavailable = 0 :=
  ⟨rfl, sizeof_unavailable cfgUnavailable rfl⟩

/-- C2: when `NO_OSVERSIONINFOEX` is defined, `getOSVERSIONINFOEXFields`
yields `NULL` for every environment, object reference and structure pointer,
a non-null pointer to a populated structure included, and leaves the state as
it was. -/
theorem get_unavailable (cfg : Config) (env : JNIEnv) (lpObject : jobject) (lpStruct : Ptr)
    (w : World) (h : cfg.NO_OSVERSIONINFOEX = true) :
    getOSVERSIONINFOEXFields cfg env lpObject lpStruct w = .ok (NULL, w) := by
  simp [getOSVERSIONINFOEXFields, h]

theorem get_unavailable_witness :
    cfgUnavailable.NO_OSVERSIONINFOEX = true ∧ (4096 : Ptr) ≠ NULL ∧
      sampleWorld.mem 4096 = some sampleStruct ∧
      getOSVERSIONINFOEXFields cfgUnavailable 7 1 4096 sampleWorld = .ok (NULL, sampleWorld) :=
  ⟨rfl, by decide, rfl, get_unavailable cfgUnavailable 7 1 4096 sampleWorld rfl⟩

/-- C3: when `NO_OSVERSIONINFOEX` is defined, `setOSVERSIONINFOEXFields` is a
no-op: the call completes and the whole state, native buffer and managed
object included, is the one before the call. -/
theorem set_unavailable (cfg : Config) (env : JNIEnv) (lpObject : jobject) (lpStruct : Ptr)
    (w : World) (h : cfg.NO_OSVERSIONINFOEX = true) :
    setOSVERSIONINFOEXFields cfg env lpObject lpStruct w = .ok w := by
  simp [setOSVERSIONINFOEXFields, h]

theorem set_unavailable_witness :
    cfgUnavailable.NO_OSVERSIONINFOEX = true ∧
      setOSVERSIONINFOEXFields cfgUnavailable 7 3 4096 sampleWorld = .ok sampleWorld :=
  ⟨rfl, set_unavailable cfgUnavailable 7 3 4096 sampleWorld rfl⟩

/-- C4: when `NO_OSVERSIONINFOEX` is defined, `cacheOSVERSIONINFOEXFields`
completes normally and changes nothing, the field cache included, for every
environment and object reference. -/
theorem cache_unavailable (cfg : Config) (env : JNIEnv) (lpObject : jobject) (w : World)
    (h : cfg.NO_OSVERSIONINFOEX = true) :
    cacheOSVERSIONINFOEXFields cfg env lpObject w = .ok w := by
  simp [cacheOSVERSIONINFOEXFields, h]

theorem cache_unavailable_witness :
    cfgUnavailable.NO_OSVERSIONINFOEX = true ∧
      cacheOSVERSIONINFOEXFields cfgUnavailable 7 1 sampleWorld = .ok sampleWorld :=
  ⟨rfl, cache_unavailable cfgUnavailable 7 1 sampleWorld rfl⟩

/-- C5: when `NO_OSVERSIONINFOEX` is not defined, `OSVERSIONINFOEX_sizeof()`
is `sizeof(OSVERSIONINFOEX)`, the byte size of the layout of the structure,
which covers every member of the structure. -/
theorem sizeof_available (cfg : Config) (h : cfg.NO_OSVERSIONINFOEX = false) :
    OSVERSIONINFOEX_sizeof cfg = sizeofStruct cfg.OSVERSIONINFOEX ∧
      memberBytes cfg.OSVERSIONINFOEX ≤ OSVERSIONINFOEX_sizeof cfg := by
  have hs : OSVERSIONINFOEX_sizeof cfg = sizeofStruct cfg.OSVERSIONINFOEX := by
    simp [OSVERSIONINFOEX_sizeof, h]
  exact ⟨hs, hs ▸ memberBytes_le_sizeofStruct cfg.OSVERSIONINFOEX⟩

theorem sizeof_available_witness :
    cfgAvailable.NO_OSVERSIONINFOEX = false ∧
      sizeofStruct cfgAvailable.OSVERSIONINFOEX = 284 ∧
      OSVERSIONINFOEX_sizeof cfgAvailable = sizeofStruct cfgAvailable.OSVERSIONINFOEX ∧
      memberBytes cfgAvailable.OSVERSIONINFOEX ≤ OSVERSIONINFOEX_sizeof cfgAvailable :=
  ⟨rfl, by decide, sizeof_available cfgAvailable rfl⟩

/-- C6: in the available configuration, encoding a managed object `x` whose
string holds no terminator into a live structure and decoding that structure
into a live object gives an object whose integer fields are those of `x` and
whose string is that of `x` cut at the width of the character array; when
the string fits the array the decoded object is field-wise equal to `x`. -/
theorem decode_encode_roundtrip (cfg : Config) (env : JNIEnv) (src dst : jobject) (p : Ptr)
    (w : World) (x y : ManagedObject) (s : NativeStruct)
    (havail : cfg.NO_OSVERSIONINFOEX = false)
    (hx : w.heap src = some x) (hy : w.heap dst = some y) (hs : w.mem p = some s)
    (hclass : ∀ f ∈ expectedFields, f ∈ x.clazz)
    (hvalid : ∀ c ∈ x.servicePack, c ≠ 0) :
    ∃ w1 w2, setOSVERSIONINFOEXFields cfg env src p w = .ok w1 ∧
      getOSVERSIONINFOEXFields cfg env dst p w1 = .ok (p, w2) ∧
      w2.heap dst = some { x with clazz := y.clazz,
                                  servicePack := x.servicePack.take cfg.szCSDVersionLen } ∧
      (x.servicePack.length ≤ cfg.szCSDVersionLen →
        w2.heap dst = some { x with clazz := y.clazz }) := by
  obtain ⟨wc, hcache, hheap, hmem, hcached⟩ := cacheFields_complete src w x hx hclass
  have hx1 : wc.heap src = some x := by rw [hheap]; exact hx
  have hy1 : wc.heap dst = some y := by rw [hheap]; exact hy
  have hs1 : wc.mem p = some s := by rw [hmem]; exact hs
  let W := cfg.szCSDVersionLen
  let w1 : World := { wc with mem := Function.update wc.mem p (some (encodeFields W x s)) }
  have hset : setOSVERSIONINFOEXFields cfg env src p w = .ok w1 := by
    simp [setOSVERSIONINFOEXFields, havail, encode, hcache, hx1, hs1, w1, W]
  have hc1 : cacheFields dst w1 = .ok w1 := cacheFields_of_cached dst w1 hcached
  have hy2 : w1.heap dst = some y := hy1
  have hs2 : w1.mem p = some (encodeFields W x s) := by simp [w1]
  let w2 : World :=
    { w1 with heap := Function.update w1.heap dst (some (decodeFields W (encodeFields W x s) y)) }
  have hget : getOSVERSIONINFOEXFields cfg env dst p w1 = .ok (p, w2) := by
    simp [getOSVERSIONINFOEXFields, havail, decode, hc1, hy2, hs2, hy1, w2, w1, W]
  have hres : w2.heap dst = some { x with clazz := y.clazz,
                                          servicePack := x.servicePack.take W } := by
    simp [w2, decodeFields_encodeFields W x y s hvalid]
  refine ⟨w1, w2, hset, hget, hres, ?_⟩
  intro hlen
  rw [hres, List.take_of_length_le hlen]

theorem decode_encode_roundtrip_witness :
    (cfgNarrow.NO_OSVERSIONINFOEX = false ∧ sampleWorld.heap 3 = some longObject ∧
      sampleWorld.heap 1 = some sampleObject ∧ sampleWorld.mem 4096 = some sampleStruct ∧
      (∀ f ∈ expectedFields, f ∈ longObject.clazz) ∧ (∀ c ∈ longObject.servicePack, c ≠ 0)) ∧
    ∃ w1 w2, setOSVERSIONINFOEXFields cfgNarrow 7 3 4096 sampleWorld = .ok w1 ∧
      getOSVERSIONINFOEXFields cfgNarrow 7 1 4096 w1 = .ok (4096, w2) ∧
      w2.heap 1 = some { longObject with servicePack := [83, 80, 49] } ∧
      (longObject.servicePack.length ≤ 3 → w2.heap 1 = some longObject) :=
  ⟨⟨rfl, rfl, rfl, rfl, by decide, by decide⟩,
   decode_encode_roundtrip cfgNarrow 7 3 1 4096 sampleWorld longObject sampleObject sampleStruct
     rfl rfl rfl rfl (by decide) (by decide)⟩

/-- C7: `cacheOSVERSIONINFOEXFields` is idempotent in both configurations:
two calls in sequence give the outcome and the state of one call, so whatever
runs afterwards (decode, encode, size) behaves the same. -/
theorem cache_idempotent (cfg : Config) (env : JNIEnv) (lpObject : jobject) (w : World) :
    (cacheOSVERSIONINFOEXFields cfg env lpObject w).bind
        (cacheOSVERSIONINFOEXFields cfg env lpObject) =
      cacheOSVERSIONINFOEXFields cfg env lpObject w ∧
    ∀ (α : Type) (k : World → Except Fault α),
      ((cacheOSVERSIONINFOEXFields cfg env lpObject w).bind
          (cacheOSVERSIONINFOEXFields cfg env lpObject)).bind k =
        (cacheOSVERSIONINFOEXFields cfg env lpObject w).bind k := by
  have h : (cacheOSVERSIONINFOEXFields cfg env lpObject w).bind
      (cacheOSVERSIONINFOEXFields cfg env lpObject) =
      cacheOSVERSIONINFOEXFields cfg env lpObject w := by
    cases hc : cfg.NO_OSVERSIONINFOEX with
    | true => simp [cacheOSVERSIONINFOEXFields, hc, Except.bind]
    | false =>
      have hf : cacheOSVERSIONINFOEXFields cfg env lpObject = cacheFields lpObject := by
        funext w0
        simp [cacheOSVERSIONINFOEXFields, hc]
      rw [hf]
      exact cacheFields_idem lpObject lpObject w
  exact ⟨h, fun α k => by rw [h]⟩

/-- C8: in the available configuration, in every state reached by a
sequence of calls from a state consistent for the one managed class, a call
of `cacheOSVERSIONINFOEXFields` on an object whose class lacks a field the
structure expects ends at once with the fatal misconfiguration error instead
of completing normally. -/
theorem cache_missing_field_fails (cfg : Config) (c : List FieldName) (calls : List Call)
    (w0 w : World) (env : JNIEnv) (lpObject : jobject) (x : ManagedObject)
    (havail : cfg.NO_OSVERSIONINFOEX = false)
    (hstart : Consistent c w0) (hrun : run cfg calls w0 = .ok w)
    (hx : w.heap lpObject = some x) (hmiss : ∃ f ∈ expectedFields, f ∉ x.clazz) :
    cacheOSVERSIONINFOEXFields cfg env lpObject w = .error .misconfiguration := by
  have hcons := consistent_run cfg c calls w0 w hstart hrun
  have hclass : x.clazz = c := hcons.1 lpObject x hx
  have hfresh : w.fc.cached = false := by
    cases hc : w.fc.cached with
    | false => rfl
    | true =>
      obtain ⟨f, hf, hnot⟩ := hmiss
      exact absurd (hclass ▸ hcons.2 hc f hf) hnot
  simp [cacheOSVERSIONINFOEXFields, havail, cacheFields, hfresh, hx, expected_not_all x hmiss]

theorem cache_missing_field_fails_witness :
    (cfgAvailable.NO_OSVERSIONINFOEX = false ∧
      Consistent [.major, .minor] skewedWorld ∧
      run cfgAvailable [] skewedWorld = .ok skewedWorld ∧
      skewedWorld.heap 2 = some skewedObject ∧
      ∃ f ∈ expectedFields, f ∉ skewedObject.clazz) ∧
    cacheOSVERSIONINFOEXFields cfgAvailable 7 2 skewedWorld = .error .misconfiguration :=
  have hone : ∀ o x, skewedWorld.heap o = some x → x.clazz = [.major, .minor] := by
    intro o x h
    simp only [skewedWorld] at h
    split at h
    · injection h with h
      rw [← h]; rfl
    · cases h
  have hcons : Consistent [.major, .minor] skewedWorld :=
    consistent_of_fresh [.major, .minor] skewedWorld hone rfl
  ⟨⟨rfl, hcons, rfl, rfl, .build, by decide, by decide⟩,
   cache_missing_field_fails cfgAvailable [.major, .minor] [] skewedWorld skewedWorld 7 2
     skewedObject rfl hcons rfl rfl ⟨.build, by decide, by decide⟩⟩

/-- C10: provided the structure type of an available configuration has at
least one member and no member of size zero, `OSVERSIONINFOEX_sizeof()` is 0
exactly when `NO_OSVERSIONINFOEX` is defined. -/
theorem sizeof_zero_iff_unavailable (cfg : Config)
    (hstruct : cfg.NO_OSVERSIONINFOEX = false →
      cfg.OSVERSIONINFOEX ≠ [] ∧ ∀ m ∈ cfg.OSVERSIONINFOEX, 0 < m.size) :
    OSVERSIONINFOEX_sizeof cfg = 0 ↔ cfg.NO_OSVERSIONINFOEX = true := by
  cases hc : cfg.NO_OSVERSIONINFOEX with
  | true => simp [OSVERSIONINFOEX_sizeof, hc]
  | false =>
    obtain ⟨hne, hpos⟩ := hstruct hc
    have h1 := memberBytes_pos cfg.OSVERSIONINFOEX hne hpos
    have h2 := memberBytes_le_sizeofStruct cfg.OSVERSIONINFOEX
    simp [OSVERSIONINFOEX_sizeof, hc]
    omega

theorem sizeof_zero_iff_unavailable_witness :
    (cfgAvailable.OSVERSIONINFOEX ≠ [] ∧ ∀ m ∈ cfgAvailable.OSVERSIONINFOEX, 0 < m.size) ∧
    (OSVERSIONINFOEX_sizeof cfgAvailable = 0 ↔ cfgAvailable.NO_OSVERSIONINFOEX = true) ∧
    OSVERSIONINFOEX_sizeof cfgAvailable = 284 :=
  ⟨⟨by decide, by decide⟩,
   sizeof_zero_iff_unavailable cfgAvailable (fun _ => ⟨by decide, by decide⟩),
   by decide⟩

end OSVersionStructs
